import Mathlib

/-!
Shallow embedding of the core of the `invest-masters` repository:
the evaluation orchestrator (`src/evaluate.rs`), the streaming
completion client (`src/llm/provider/open_ai.rs`), the structured
answer extractor (`src/utils/markdown.rs`) and verdict parsing
(`src/master.rs`), together with theorems settling the frozen claims.

External collaborators (serde_json's string-to-value parser, the HTTP
transport, the LLM itself) are modelled as oracles passed in as
parameters; everything the repository's own code does is translated
directly from the source.
-/

deriving instance DecidableEq for Except

namespace Invmst

/-- Error enumeration, translated from `src/error.rs` (`InvmstError`).
Variants carrying foreign library errors keep only their message text. -/
inductive InvmstError where
  | ConcurrentError (msg : String)
  | HttpRequestError (msg : String)
  | HttpStatusError (msg : String)
  | Invalid (code : String) (msg : String)
  | NoData (code : String) (msg : String)
  | NotExists (code : String) (msg : String)
  | ParseEnumError
  | Required (code : String) (msg : String)
  | SerdeJsonError (msg : String)
  | UrlParseError (msg : String)
deriving DecidableEq

/-- Model of a `serde_json::Value`. Numbers are modelled as integers,
which covers every number the claims touch; `as_u64` below mirrors
serde's behaviour on integer-valued numbers. -/
inductive Json where
  | null
  | bool (b : Bool)
  | num (n : Int)
  | str (s : String)
  | arr (elems : List Json)
  | obj (fields : List (String × Json))

/-- `value["key"]` on a `serde_json::Value`: returns the field when the
value is an object containing the key, `Null` otherwise. -/
def Json.idx (j : Json) (key : String) : Json :=
  match j with
  | .obj fields =>
    match fields.find? (fun kv => kv.1 = key) with
    | some kv => kv.2
    | none => .null
  | _ => .null

/-- `value[i]` on a `serde_json::Value`: returns the element when the
value is an array with index `i` in bounds, `Null` otherwise. -/
def Json.idxNat (j : Json) (i : Nat) : Json :=
  match j with
  | .arr elems => elems.getD i .null
  | _ => .null

/-- `Value::as_str`. -/
def Json.asStr : Json → Option String
  | .str s => some s
  | _ => none

/-- `Value::as_u64`: `some` exactly when the number is an integer
representable as an unsigned 64-bit value. -/
def Json.asU64 : Json → Option Nat
  | .num n => if 0 ≤ n ∧ n < 2 ^ 64 then some n.toNat else none
  | _ => none

/-- ASCII lower-casing of one character, as used by
`eq_ignore_ascii_case` (the comparison behind strum's
`ascii_case_insensitive` parsing). -/
def asciiLower (c : Char) : Char :=
  if 'A' ≤ c ∧ c ≤ 'Z' then Char.ofNat (c.toNat + 32) else c

/-- ASCII lower-casing of a string. -/
def lowerStr (s : String) : String :=
  String.mk (s.data.map asciiLower)

/-- `Prospect` from `src/financial.rs`: `Bullish`, `Bearish`, `Neutral`,
derived `EnumString` with `ascii_case_insensitive` and no aliases, so
`from_str` matches the variant names case-insensitively. -/
inductive Prospect where
  | Bullish
  | Bearish
  | Neutral
deriving DecidableEq

/-- `Prospect::from_str` (strum, `ascii_case_insensitive`). -/
def Prospect.fromStr (s : String) : Except InvmstError Prospect :=
  if lowerStr s = "bullish" then .ok .Bullish
  else if lowerStr s = "bearish" then .ok .Bearish
  else if lowerStr s = "neutral" then .ok .Neutral
  else .error .ParseEnumError

/-- `MasterAnalysis` from `src/master.rs`: prospect, `u64` rating
(modelled as `Nat`, bounded by `as_u64`), explanation text. -/
structure MasterAnalysis where
  prospect : Prospect
  rating : Nat
  explanation : String
deriving DecidableEq

/-- The body of `MasterAnalysis::from_json` after `serde_json::from_str`
has produced a value: look up `prospect` as a string (else `Required`),
parse it, look up `rating` via `as_u64` (else `Required`), look up
`explanation` as a string (else `Required`). Translated from
`src/master.rs` lines 69-96. -/
def MasterAnalysis.fromJsonValue (json : Json) : Except InvmstError MasterAnalysis :=
  match (json.idx "prospect").asStr with
  | none => .error (.Required "PROSPECT_REQUIRED" "Missing prospect")
  | some prospectStr =>
    match Prospect.fromStr prospectStr with
    | .error e => .error e
    | .ok prospect =>
      match (json.idx "rating").asU64 with
      | none => .error (.Required "RATING_REQUIRED" "Missing rating")
      | some rating =>
        match (json.idx "explanation").asStr with
        | none => .error (.Required "EXPLANATION_REQUIRED" "Missing explanation")
        | some explanation => .ok ⟨prospect, rating, explanation⟩

/-- `MasterAnalysis::from_json`: `serde_json::from_str` (an external
library, supplied as the `parse` oracle; its failure is wrapped as a
serde error by the `From` conversion) followed by the field checks. -/
def MasterAnalysis.fromJson (parse : String → Except String Json) (s : String) :
    Except InvmstError MasterAnalysis :=
  match parse s with
  | .error e => .error (.SerdeJsonError e)
  | .ok j => MasterAnalysis.fromJsonValue j

/-- `Role` from `src/llm.rs`. -/
inductive Role where
  | Bot
  | User
  | System
deriving DecidableEq

/-- `ChatMessage` from `src/llm.rs`. -/
structure ChatMessage where
  role : Role
  content : String
  reasoning : Option String
deriving DecidableEq

/-- `ChatCompletionEvent` from `src/llm.rs`. -/
inductive ChatCompletionEvent where
  | Content (s : String)
  | ReasoningContent (s : String)
  | Error (e : InvmstError)
deriving DecidableEq

/-- Strip a trailing carriage return; the argument is the reversed
current line, so the trailing `\r` sits at the head. -/
def stripCr : List Char → List Char
  | '\r' :: t => t
  | t => t

/-- Accumulating worker for `rustLines`; `cur` holds the current line's
characters in reverse order. -/
def linesGo (cur : List Char) : List Char → List (List Char)
  | [] => if cur.isEmpty then [] else [cur.reverse]
  | c :: rest =>
    if c = '\n' then (stripCr cur).reverse :: linesGo [] rest
    else linesGo (c :: cur) rest

/-- Rust's `str::lines`: split at `\n` or `\r\n`; the final line ending
is optional, and a trailing segment without a newline keeps any bare
`\r` it ends with. -/
def rustLines (cs : List Char) : List (List Char) :=
  linesGo [] cs

/-- `line.strip_prefix("data: ")` from the producer loop. -/
def stripData : List Char → Option (List Char)
  | 'd' :: 'a' :: 't' :: 'a' :: ':' :: ' ' :: rest => some rest
  | _ => none

/-- Path `choices[0].delta.content` of a parsed frame, as a string. -/
def deltaContent (j : Json) : Option String :=
  ((((j.idx "choices").idxNat 0).idx "delta").idx "content").asStr

/-- Path `choices[0].delta.reasoning_content` of a parsed frame, as a
string. -/
def deltaReasoning (j : Json) : Option String :=
  ((((j.idx "choices").idxNat 0).idx "delta").idx "reasoning_content").asStr

/-- Events sent for one `data: ` payload that is not `[DONE]`: parse it
as JSON (`parse` is the serde oracle; a parse failure is wrapped as a
serde error and sent as one `Error` event); on success send one
`Content` event when `choices[0].delta.content` is a string, else one
`ReasoningContent` event when `choices[0].delta.reasoning_content` is a
string, else nothing. From `src/llm/provider/open_ai.rs` lines 118-148. -/
def lineEvents (parse : String → Except String Json) (data : List Char) :
    List ChatCompletionEvent :=
  match parse (String.mk data) with
  | .error e => [.Error (.SerdeJsonError e)]
  | .ok j =>
    match deltaContent j with
    | some s => [.Content s]
    | none =>
      match deltaReasoning j with
      | some s => [.ReasoningContent s]
      | none => []

/-- The `for line in chunk_str.lines()` loop of the producer: lines
without the `data: ` marker emit nothing; the `[DONE]` payload breaks
out of the loop, dropping the remaining lines of this chunk; any other
payload is handled by `lineEvents`. -/
def chunkLineEvents (parse : String → Except String Json) :
    List (List Char) → List ChatCompletionEvent
  | [] => []
  | line :: rest =>
    match stripData line with
    | none => chunkLineEvents parse rest
    | some data =>
      if data = "[DONE]".data then []
      else lineEvents parse data ++ chunkLineEvents parse rest

/-- Events sent for one item of the byte stream: a transport-level read
error becomes one `Error` event; a chunk is decoded (lossily, modelled
as the already-decoded string) and its lines are processed. -/
def chunkEvents (parse : String → Except String Json) :
    Except String String → List ChatCompletionEvent
  | .error e => [.Error (.HttpRequestError e)]
  | .ok chunk => chunkLineEvents parse (rustLines chunk.data)

/-- The whole producer task of `chat_completion_stream`: the `while`
loop over the byte stream's chunks, in order; the channel preserves the
order in which events are sent, so the consumer-visible event stream is
the concatenation of the per-chunk events. -/
def producerEvents (parse : String → Except String Json) :
    List (Except String String) → List ChatCompletionEvent
  | [] => []
  | chunk :: rest => chunkEvents parse chunk ++ producerEvents parse rest

/-- The HTTP response as the streaming client sees it: the status test,
the status line, the body text read for the error message, and the
chunked byte stream. -/
structure HttpResponse where
  statusSuccess : Bool
  statusLine : String
  bodyText : String
  chunks : List (Except String String)

/-- Outcome of `client.post(...).send()`: transport failure or a
response. -/
inductive SendOutcome where
  | failed (e : String)
  | responded (r : HttpResponse)

/-- `chat_completion_stream` from `src/llm/provider/open_ai.rs` lines
97-166 after the request has been issued: a send failure propagates; a
non-success status returns `HttpStatusError` carrying the status line
and the body, before any channel is created; a success status spawns
the producer, whose complete event output is returned as the stream. -/
def chatCompletionStream (parse : String → Except String Json)
    (send : SendOutcome) : Except InvmstError (List ChatCompletionEvent) :=
  match send with
  | .failed e => .error (.HttpRequestError e)
  | .responded r =>
    if r.statusSuccess then .ok (producerEvents parse r.chunks)
    else .error (.HttpStatusError (r.statusLine ++ " " ++ r.bodyText))

/-- The drain loop of `chat_completion`: concatenate `Content` deltas
into `content` and `ReasoningContent` deltas into `reasoning_content`,
returning the first `Error` event as a failure; at end of stream the
`Bot` message is built, with `reasoning` omitted when empty. From
`src/llm/provider/open_ai.rs` lines 30-62. -/
def drainEvents (content reasoning : String) :
    List ChatCompletionEvent → Except InvmstError ChatMessage
  | [] => .ok ⟨.Bot, content, if reasoning = "" then none else some reasoning⟩
  | .Content d :: rest => drainEvents (content ++ d) reasoning rest
  | .ReasoningContent d :: rest => drainEvents content (reasoning ++ d) rest
  | .Error e :: _ => .error e

/-- `chat_completion` applied to the event stream it drains. -/
def chatCompletionOfEvents (events : List ChatCompletionEvent) :
    Except InvmstError ChatMessage :=
  drainEvents "" "" events

/-- Full `chat_completion`: open the stream, then drain it. -/
def chatCompletion (parse : String → Except String Json)
    (send : SendOutcome) : Except InvmstError ChatMessage :=
  match chatCompletionStream parse send with
  | .error e => .error e
  | .ok events => chatCompletionOfEvents events

/-- The synthetic byte stream of the spec's streaming-client test:
two content frames, then `[DONE]`, each frame followed by a blank
line. -/
def syntheticBody : String :=
  "data: \x7b\"choices\":[\x7b\"delta\":\x7b\"content\":\"A\"\x7d\x7d]\x7d\n\ndata: \x7b\"choices\":[\x7b\"delta\":\x7b\"content\":\"B\"\x7d\x7d]\x7d\n\ndata: [DONE]\n\n"

/-- The JSON value serde produces for a frame whose
`choices[0].delta.content` is `s`. -/
def deltaJson (s : String) : Json :=
  .obj [("choices", .arr [.obj [("delta", .obj [("content", .str s)])]])]

/-- serde oracle for the synthetic stream: maps the two frame payloads
to their JSON values and rejects anything else. -/
def syntheticParse : String → Except String Json := fun s =>
  if s = "\x7b\"choices\":[\x7b\"delta\":\x7b\"content\":\"A\"\x7d\x7d]\x7d" then .ok (deltaJson "A")
  else if s = "\x7b\"choices\":[\x7b\"delta\":\x7b\"content\":\"B\"\x7d\x7d]\x7d" then .ok (deltaJson "B")
  else .error "expected value"

/-! ## Structured answer extractor, from `src/utils/markdown.rs`

`extract_code_block` applies three regex rewrites and a trim, in order:
`REGEX_XML_TAG` (pattern `<[^>]+>[\s\S]*?<\/[^>]+>`, `replace_all` with
the empty string), `REGEX_CODE_BLOCK_START` (pattern
"(?:([\s\S]*?))(\s*```.*\n)([\s\S]*?)", `replace` of the first match),
`REGEX_CODE_BLOCK_END` (pattern "\s*```[\s\S]*", `replace` of the
first match), then `str::trim`.
The rewrites are modelled as direct string transformations with the
same leftmost-first, lazy/greedy semantics the regex crate gives these
patterns. -/

/-- The backtick character (written by code to avoid literal clutter). -/
def backtick : Char := Char.ofNat 96

/-- Rust's `char::is_whitespace` / the regex crate's `\s` (both are the
Unicode `White_Space` property). -/
def rustCharIsWhitespace (c : Char) : Bool :=
  let n := c.toNat
  (decide (9 ≤ n) && decide (n ≤ 13)) || n == 32 || n == 0x85 || n == 0xA0 ||
    n == 0x1680 || (decide (0x2000 ≤ n) && decide (n ≤ 0x200A)) ||
    n == 0x2028 || n == 0x2029 || n == 0x202F || n == 0x205F || n == 0x3000

/-- `str::trim`: drop leading and trailing whitespace. -/
def rustTrim (cs : List Char) : List Char :=
  ((cs.dropWhile rustCharIsWhitespace).reverse.dropWhile rustCharIsWhitespace).reverse

/-- Scan to the first `>` and return what follows; `none` if there is
no `>`. Models the `[^>]+>` tail of a tag pattern: the character class
cannot cross a `>`, so the tag body necessarily ends at the first `>`. -/
def skipToGt : List Char → Option (List Char)
  | [] => none
  | c :: rest => if c = '>' then some rest else skipToGt rest

/-- Match `[^>]+>` at the head: at least one non-`>` character, then
everything up to and including the first `>`. -/
def afterTagBody : List Char → Option (List Char)
  | [] => none
  | c :: rest => if c = '>' then none else skipToGt rest

/-- Match an opening tag `<[^>]+>` at the head of the list, returning
the remaining characters. -/
def matchOpenTag : List Char → Option (List Char)
  | [] => none
  | c :: rest => if c = '<' then afterTagBody rest else none

/-- Match a closing tag `<\/[^>]+>` at the head of the list, returning
the remaining characters. -/
def matchCloseTag : List Char → Option (List Char)
  | c1 :: c2 :: rest => if c1 = '<' ∧ c2 = '/' then afterTagBody rest else none
  | _ => none

/-- The lazy `[\s\S]*?<\/[^>]+>` part: find the nearest position where
a closing tag matches and return what follows it. -/
def findClose : List Char → Option (List Char)
  | [] => none
  | c :: rest =>
    match matchCloseTag (c :: rest) with
    | some r => some r
    | none => findClose rest

/-- Match the whole `REGEX_XML_TAG` pattern at the head of the list:
an opening tag, then lazily up to the nearest closing tag. The tag
names are never compared. -/
def xmlMatchAt (cs : List Char) : Option (List Char) :=
  (matchOpenTag cs).bind findClose

/-- Fuelled worker for `replace_all` with `REGEX_XML_TAG`: delete each
leftmost match and continue scanning after it. Every successful match
consumes at least one character, so fuel equal to the length of the
input is never exhausted. -/
def replaceAllXmlTagsAux : Nat → List Char → List Char
  | 0, cs => cs
  | _ + 1, [] => []
  | fuel + 1, c :: rest =>
    match xmlMatchAt (c :: rest) with
    | some rem => replaceAllXmlTagsAux fuel rem
    | none => c :: replaceAllXmlTagsAux fuel rest

/-- `REGEX_XML_TAG.replace_all(s, "")`. -/
def replaceAllXmlTags (cs : List Char) : List Char :=
  replaceAllXmlTagsAux cs.length cs

/-- Does the list start with three backticks? -/
def isTicksHead : List Char → Bool
  | a :: b :: c :: _ => a == backtick && b == backtick && c == backtick
  | _ => false

/-- Scan to the first `\n` and return what follows (the `.*\n` tail of
the fence-line group: `.` cannot cross a newline, so the fence line
ends at the first newline after the backticks). -/
def afterNewline : List Char → Option (List Char)
  | [] => none
  | c :: rest => if c = '\n' then some rest else afterNewline rest

/-- Find the first triple backtick and return what follows its line's
newline. If the first triple backtick is not followed by any newline,
no later one is either, and the pattern has no match. -/
def findFenceLineEnd : List Char → Option (List Char)
  | [] => none
  | c :: rest =>
    if isTicksHead (c :: rest) then afterNewline (rest.drop 2)
    else findFenceLineEnd rest

/-- `REGEX_CODE_BLOCK_START.replace(s, "")`: the lazy leading group
makes the first match start at position 0 and extend through the first
newline-terminated fence line, so the replacement deletes everything up
to and including that newline; no fence line means no match. -/
def fenceStartRemove (cs : List Char) : List Char :=
  match findFenceLineEnd cs with
  | some rest => rest
  | none => cs

/-- Does the list start with whitespace followed by a triple backtick
(the "\s*```" head of `REGEX_CODE_BLOCK_END`)? -/
def startsFenceAfterWs : List Char → Bool
  | [] => false
  | c :: rest =>
    if isTicksHead (c :: rest) then true
    else if rustCharIsWhitespace c then startsFenceAfterWs rest
    else false

/-- `REGEX_CODE_BLOCK_END.replace(s, "")`: the first match starts at
the earliest position from which whitespace followed by a triple
backtick is found, and `[\s\S]*` extends it to the end of the text, so
the replacement deletes from that position to the end. -/
def cutEnd : List Char → List Char
  | [] => []
  | c :: rest => if startsFenceAfterWs (c :: rest) then [] else c :: cutEnd rest

/-- `extract_code_block` from `src/utils/markdown.rs` lines 5-11:
remove all paired tag blocks, strip the first fence line and everything
before it, strip from the next fence to the end, then trim. -/
def extract_code_block (s : String) : String :=
  String.mk (rustTrim (cutEnd (fenceStartRemove (replaceAllXmlTags s.data))))

/-- Any occurrence of three consecutive backticks. -/
def hasTicks : List Char → Bool
  | [] => false
  | c :: rest => isTicksHead (c :: rest) || hasTicks rest

/-- Any position at which `REGEX_XML_TAG` matches. -/
def hasTagBlock : List Char → Bool
  | [] => false
  | c :: rest => (xmlMatchAt (c :: rest)).isSome || hasTagBlock rest

/-! ## Analyzer pipeline and evaluation orchestrator

From `src/master.rs`, `src/master/warren_buffett.rs` and
`src/evaluate.rs`. The fetched market data is opaque to every claim
(its numeric content feeds only the floating-point sub-analyses, out
of scope), so the snapshot pieces are modelled as opaque tokens and the
network fetches and the LLM completion as oracles. The orchestrator
model additionally records the externally observable actions (fetches,
task spawns, joins) in program order. -/

/-- Opaque stand-in for `StockInfo` (fetched company profile). -/
structure StockInfo where
  token : Nat
deriving DecidableEq

/-- Opaque stand-in for `StockEvents` (fetched dividend events). -/
structure StockEvents where
  token : Nat
deriving DecidableEq

/-- Opaque stand-in for `StockDailyData` (fetched daily valuations). -/
structure StockDailyData where
  token : Nat
deriving DecidableEq

/-- Opaque stand-in for one `StockFiscalMetricset` (one fiscal
quarter's fetched metric set). Only the emptiness of the list of these
matters to any claim. -/
structure StockFiscalMetricset where
  token : Nat
deriving DecidableEq

/-- The `Master` enum from `src/master.rs`: two variants, each with
case-insensitive parse aliases. -/
inductive Master where
  | BenjaminGraham
  | WarrenBuffett
deriving DecidableEq

/-- `Master::from_str` (strum `EnumString`, `ascii_case_insensitive`,
aliases `graham`/`ben-graham` and `buffett`/`warren-buffett`; when
`serialize` aliases are given, only they are matched). -/
def Master.fromStr (s : String) : Except InvmstError Master :=
  if lowerStr s = "graham" ∨ lowerStr s = "ben-graham" then .ok .BenjaminGraham
  else if lowerStr s = "buffett" ∨ lowerStr s = "warren-buffett" then .ok .WarrenBuffett
  else .error .ParseEnumError

/-- `Master::iter()` (strum `EnumIter`): declaration order. -/
def Master.iterAll : List Master := [.BenjaminGraham, .WarrenBuffett]

/-- Steps a persona's `analyze` performs after its no-data guard. -/
inductive AnalyzeAction where
  | subAnalyses
  | completionCall
deriving DecidableEq

/-- `warren_buffett::analyze` (`src/master/warren_buffett.rs` lines
16-70): an empty fiscal-metricset sequence fails immediately with
`NoData`, before any sub-analysis or completion call (the returned
action list is the list of steps actually performed). Otherwise the
sub-analyses run, the prompt is built, `chat_completion` is called
(`completion` is the provider oracle for this task), and the result's
content goes through `extract_code_block` and
`MasterAnalysis::from_json`. -/
def warrenBuffettAnalyze (parse : String → Except String Json)
    (completion : Except InvmstError ChatMessage)
    (metricsets : List StockFiscalMetricset) :
    List AnalyzeAction × Except InvmstError MasterAnalysis :=
  if metricsets = [] then
    ([], .error (.NoData "NO_STOCK_METRICS" "No stock metrics data"))
  else
    ([.subAnalyses, .completionCall],
      match completion with
      | .error e => .error e
      | .ok bot => MasterAnalysis.fromJson parse (extract_code_block bot.content))

/-- `Master::analyze` (`src/master.rs` lines 38-53): dispatch on the
persona. The `BenjaminGraham` arm is `todo!()`, which panics; a panic
returns no value at all, modelled as `none`. -/
def Master.analyze (m : Master) (parse : String → Except String Json)
    (completion : Except InvmstError ChatMessage)
    (metricsets : List StockFiscalMetricset) :
    Option (List AnalyzeAction × Except InvmstError MasterAnalysis) :=
  match m with
  | .BenjaminGraham => none
  | .WarrenBuffett => some (warrenBuffettAnalyze parse completion metricsets)

/-- `EvaluateOptions` from `src/evaluate.rs`. The date only steers
which fiscal quarters are fetched, which the fetch oracle indexes by
iteration number instead. -/
structure EvaluateOptions where
  backwardDays : Int
  date : Option Unit
  masters : List String

/-- `Evaluation` from `src/evaluate.rs`: the per-master analysis map
(modelled as an association list in insertion order). -/
structure Evaluation where
  masterAnalyses : List (Master × MasterAnalysis)
deriving DecidableEq

/-- Externally observable actions of `evaluate::run`, in program
order: the data fetches (network calls), task spawns, and joins. -/
inductive EvalAction where
  | fetchInfo
  | fetchEvents
  | fetchDaily
  | fetchFiscal (i : Nat)
  | spawn (m : Master)
  | join (m : Master)
deriving DecidableEq

/-- Oracles for everything `evaluate::run` consumes from outside the
core: the ticker parse, the four fetch endpoints (the fiscal fetch
indexed by loop iteration), the serde parser, and the LLM completion
each spawned task receives. -/
structure EvalOracle where
  tickerParse : Except InvmstError Unit
  stockInfo : Except InvmstError StockInfo
  stockEvents : Except InvmstError StockEvents
  dailyValuations : Except InvmstError StockDailyData
  fiscalMetricset : Nat → Except InvmstError StockFiscalMetricset
  completion : Master → Except InvmstError ChatMessage

/-- The fiscal-metricset fetch loop of `evaluate::run`: `fiscal_count`
iterations, each fetching one quarter's metricset; a failed fetch
aborts with that error. Returns the trace of fetches performed and the
collected list (newest first, in fetch order). -/
def fiscalLoop (o : EvalOracle) : Nat → Nat →
    List EvalAction × Except InvmstError (List StockFiscalMetricset)
  | _, 0 => ([], .ok [])
  | i, n + 1 =>
    match o.fiscalMetricset i with
    | .error e => ([.fetchFiscal i], .error e)
    | .ok m =>
      let (tr, res) := fiscalLoop o (i + 1) n
      (.fetchFiscal i :: tr,
        match res with
        | .error e => .error e
        | .ok ms => .ok (m :: ms))

/-- The filter-parsing loop of `evaluate::run`: parse each filter
string in order, failing the whole call with `NotExists` at the first
unparseable alias. -/
def resolveMasters : List String → Except InvmstError (List Master)
  | [] => .ok []
  | s :: rest =>
    match Master.fromStr s with
    | .ok m =>
      match resolveMasters rest with
      | .ok ms => .ok (m :: ms)
      | .error e => .error e
    | .error _ =>
      .error (.NotExists "MASTER_NOT_EXISTS" ("Master '" ++ s ++ "' not exists"))

/-- The result a spawned task hands back through its join handle:
the persona's analysis result, or — when the task panicked (the
`todo!()` arm) — the `JoinError` that `handle.await` reports, which
`?` converts into `ConcurrentError`. -/
def taskResult (o : EvalOracle) (parse : String → Except String Json)
    (m : Master) (metricsets : List StockFiscalMetricset) :
    Except InvmstError MasterAnalysis :=
  match Master.analyze m parse (o.completion m) metricsets with
  | none => .error (.ConcurrentError "task panicked")
  | some (_, res) => res

/-- The join loop of `evaluate::run`: await each handle; the first
failure encountered is returned, successes accumulate into the result
map. -/
def joinAll : List (Master × Except InvmstError MasterAnalysis) →
    List EvalAction × Except InvmstError (List (Master × MasterAnalysis))
  | [] => ([], .ok [])
  | (m, r) :: rest =>
    match r with
    | .error e => ([.join m], .error e)
    | .ok a =>
      let (tr, res) := joinAll rest
      (.join m :: tr,
        match res with
        | .error e => .error e
        | .ok xs => .ok ((m, a) :: xs))

/-- `evaluate::run` (`src/evaluate.rs` lines 27-105): parse the ticker;
fetch the stock info, the events, the daily valuations and
`backward_days / 91` fiscal metricsets, each `?`-propagating failure;
only then resolve the master set (all masters for an empty filter,
else parse each filter string, `NotExists` on the first bad alias);
spawn one task per master; join them all, failing at the first failed
task. Returns the trace of observable actions alongside the result. -/
def evalRun (o : EvalOracle) (parse : String → Except String Json)
    (opts : EvaluateOptions) : List EvalAction × Except InvmstError Evaluation :=
  match o.tickerParse with
  | .error e => ([], .error e)
  | .ok _ =>
    match o.stockInfo with
    | .error e => ([.fetchInfo], .error e)
    | .ok _ =>
      match o.stockEvents with
      | .error e => ([.fetchInfo, .fetchEvents], .error e)
      | .ok _ =>
        match o.dailyValuations with
        | .error e => ([.fetchInfo, .fetchEvents, .fetchDaily], .error e)
        | .ok _ =>
          let fetched : List EvalAction := [.fetchInfo, .fetchEvents, .fetchDaily]
          let fiscalCount : Nat := (Int.tdiv opts.backwardDays 91).toNat
          let (ftr, fres) := fiscalLoop o 0 fiscalCount
          match fres with
          | .error e => (fetched ++ ftr, .error e)
          | .ok metricsets =>
            let mres : Except InvmstError (List Master) :=
              if opts.masters = [] then .ok Master.iterAll
              else resolveMasters opts.masters
            match mres with
            | .error e => (fetched ++ ftr, .error e)
            | .ok masters =>
              let spawns := masters.map EvalAction.spawn
              let results := masters.map (fun m => (m, taskResult o parse m metricsets))
              let (jtr, jres) := joinAll results
              (fetched ++ ftr ++ spawns ++ jtr,
                match jres with
                | .error e => .error e
                | .ok xs => .ok ⟨xs⟩)

/-- A concrete oracle on which every external call succeeds, for
concrete runs of the orchestrator. -/
def happyOracle : EvalOracle where
  tickerParse := .ok ()
  stockInfo := .ok ⟨0⟩
  stockEvents := .ok ⟨0⟩
  dailyValuations := .ok ⟨0⟩
  fiscalMetricset := fun i => .ok ⟨i⟩
  completion := fun _ =>
    .ok ⟨.Bot, "\x7b\"prospect\":\"Bullish\",\"rating\":70,\"explanation\":\"ok\"\x7d", none⟩

/-- serde oracle that rejects every input, for concrete runs where no
JSON is ever parsed. -/
def failParse : String → Except String Json := fun _ => .error "expected value"

/-! ## Theorems settling the claims -/

/-- Is a result a `Required`-kind failure? -/
def resultIsRequiredFailure : Except InvmstError MasterAnalysis → Bool
  | .error (.Required _ _) => true
  | _ => false

/-- `as_u64` only produces unsigned 64-bit values. -/
theorem asU64_lt (j : Json) (n : Nat) (h : j.asU64 = some n) : n < 2 ^ 64 := by
  unfold Json.asU64 at h
  split at h
  · split at h
    · rename_i n' hn'
      cases h
      omega
    · cases h
  · cases h

/-- C3 (amended): every successfully parsed `MasterAnalysis` carries as
its rating exactly the unsigned 64-bit integer found at the `rating`
field — bounded only by `u64`, with no 0..=100 range check. -/
theorem c3_rating_unchecked_u64 (j : Json) (r : MasterAnalysis)
    (h : MasterAnalysis.fromJsonValue j = .ok r) :
    (j.idx "rating").asU64 = some r.rating ∧ r.rating < 2 ^ 64 := by
  unfold MasterAnalysis.fromJsonValue at h
  split at h
  · cases h
  · rename_i ps hps
    split at h
    · cases h
    · rename_i p hp
      split at h
      · cases h
      · rename_i n hn
        split at h
        · cases h
        · rename_i e he
          cases h
          exact ⟨hn, asU64_lt _ _ hn⟩

/-- C3 witness: a concrete successful parse, with the rating bound
instantiated. -/
theorem c3_rating_unchecked_u64_witness :
    (Json.idx (.obj [("prospect", .str "bullish"), ("rating", .num 70),
        ("explanation", .str "ok")]) "rating").asU64 = some 70 ∧ (70 : Nat) < 2 ^ 64 :=
  c3_rating_unchecked_u64
    (.obj [("prospect", .str "bullish"), ("rating", .num 70), ("explanation", .str "ok")])
    ⟨.Bullish, 70, "ok"⟩ (by decide)

/-- C3 counterexample: a rating of 150 — an unsigned integer strictly
greater than 100 — parses successfully, carrying the out-of-range
rating, so parsing does succeed with that value. -/
theorem c3_counterexample :
    MasterAnalysis.fromJsonValue
        (.obj [("prospect", .str "bearish"), ("rating", .num 150),
          ("explanation", .str "test")])
      = .ok ⟨.Bearish, 150, "test"⟩ ∧ ¬ (150 : Nat) ≤ 100 := by
  constructor
  · decide
  · decide

/-- C8 (amended): the field checks of `MasterAnalysis::from_json` run
in the order prospect, rating, explanation; whenever the first failing
check is a missing or ill-typed field, the failure is the matching
`Required` error; a present-but-unparseable prospect string instead
fails with the enum-parse error; a success never substitutes a default
— each field of the result is exactly what the JSON carries — and the
prospect string is parsed case-insensitively, as on the concrete
`{prospect: "bearish", rating: 20, explanation: "test"}` input and its
upper-case variant. -/
theorem c8_required_fields (j : Json) :
    ((j.idx "prospect").asStr = none →
      MasterAnalysis.fromJsonValue j = .error (.Required "PROSPECT_REQUIRED" "Missing prospect"))
    ∧ (∀ ps p, (j.idx "prospect").asStr = some ps → Prospect.fromStr ps = .ok p →
        (j.idx "rating").asU64 = none →
        MasterAnalysis.fromJsonValue j = .error (.Required "RATING_REQUIRED" "Missing rating"))
    ∧ (∀ ps p n, (j.idx "prospect").asStr = some ps → Prospect.fromStr ps = .ok p →
        (j.idx "rating").asU64 = some n → (j.idx "explanation").asStr = none →
        MasterAnalysis.fromJsonValue j =
          .error (.Required "EXPLANATION_REQUIRED" "Missing explanation"))
    ∧ (∀ r, MasterAnalysis.fromJsonValue j = .ok r →
        ∃ ps, (j.idx "prospect").asStr = some ps ∧ Prospect.fromStr ps = .ok r.prospect
          ∧ (j.idx "rating").asU64 = some r.rating
          ∧ (j.idx "explanation").asStr = some r.explanation)
    ∧ MasterAnalysis.fromJsonValue
        (.obj [("prospect", .str "bearish"), ("rating", .num 20), ("explanation", .str "test")])
        = .ok ⟨.Bearish, 20, "test"⟩
    ∧ MasterAnalysis.fromJsonValue
        (.obj [("prospect", .str "BEARISH"), ("rating", .num 20), ("explanation", .str "test")])
        = .ok ⟨.Bearish, 20, "test"⟩ := by
  refine ⟨?_, ?_, ?_, ?_, by decide, by decide⟩
  · intro h
    unfold MasterAnalysis.fromJsonValue
    simp only [h]
  · intro ps p hps hp hr
    unfold MasterAnalysis.fromJsonValue
    simp only [hps, hp, hr]
  · intro ps p n hps hp hr he
    unfold MasterAnalysis.fromJsonValue
    simp only [hps, hp, hr, he]
  · intro r h
    unfold MasterAnalysis.fromJsonValue at h
    split at h
    · cases h
    · rename_i ps hps
      split at h
      · cases h
      · rename_i p hp
        split at h
        · cases h
        · rename_i n hn
          split at h
          · cases h
          · rename_i e he
            cases h
            exact ⟨ps, hps, hp, hn, he⟩

/-- C8 witness: the conjuncts with hypotheses, applied at concrete
inputs: a missing prospect yields the prospect `Required` failure, and
a present, valid prospect with a missing rating yields the rating
`Required` failure. -/
theorem c8_required_fields_witness :
    MasterAnalysis.fromJsonValue (.obj [("rating", .num 20)])
      = .error (.Required "PROSPECT_REQUIRED" "Missing prospect")
    ∧ MasterAnalysis.fromJsonValue (.obj [("prospect", .str "neutral")])
      = .error (.Required "RATING_REQUIRED" "Missing rating") :=
  ⟨(c8_required_fields (.obj [("rating", .num 20)])).1 (by decide),
   (c8_required_fields (.obj [("prospect", .str "neutral")])).2.1 "neutral" .Neutral
      (by decide) (by decide) (by decide)⟩

/-- C8 counterexample: on `{"prospect": "zzz"}` the `rating` field is
absent, yet the parse failure is the enum-parse error raised by the
earlier prospect-value check, not a `Required`-kind failure. -/
theorem c8_counterexample :
    (Json.idx (.obj [("prospect", .str "zzz")]) "rating").asU64 = none
    ∧ MasterAnalysis.fromJsonValue (.obj [("prospect", .str "zzz")])
        = .error .ParseEnumError
    ∧ resultIsRequiredFailure
        (MasterAnalysis.fromJsonValue (.obj [("prospect", .str "zzz")])) = false := by
  refine ⟨by decide, by decide, by decide⟩

/-- C4 (amended): for the `WarrenBuffett` persona — the only arm of
`Master::analyze` that is implemented — any input whose fiscal-metric
sequence is empty yields the `NoData` error with an empty action
trace: no sub-analysis and no completion call is attempted, whatever
the completion oracle would have answered. -/
theorem c4_nodata_guard (parse : String → Except String Json)
    (completion : Except InvmstError ChatMessage)
    (metricsets : List StockFiscalMetricset) (h : metricsets = []) :
    Master.analyze .WarrenBuffett parse completion metricsets =
      some ([], .error (.NoData "NO_STOCK_METRICS" "No stock metrics data")) := by
  subst h
  rfl

/-- C4 witness: the guard at a concrete oracle and the empty input. -/
theorem c4_nodata_guard_witness :
    Master.analyze .WarrenBuffett failParse (.error (.HttpRequestError "offline")) [] =
      some ([], .error (.NoData "NO_STOCK_METRICS" "No stock metrics data")) :=
  c4_nodata_guard failParse (.error (.HttpRequestError "offline")) [] rfl

/-- C4 counterexample: the `BenjaminGraham` arm of `Master::analyze` is
`todo!()`: on the empty fiscal-metric input it panics (returns no value
at all) instead of returning a `NoData` error, so the claim fails for
that `Master` variant. -/
theorem c4_counterexample :
    Master.analyze .BenjaminGraham failParse (.error (.HttpRequestError "offline")) [] =
      none := rfl

/-- C5: on a non-success HTTP status, `chat_completion_stream` fails
synchronously with the error carrying the status line and the response
body, and never returns an event stream — no event channel exists, so
zero events are ever delivered to the consumer. -/
theorem c5_non_success_status (parse : String → Except String Json)
    (r : HttpResponse) (h : r.statusSuccess = false) :
    chatCompletionStream parse (.responded r) =
      .error (.HttpStatusError (r.statusLine ++ " " ++ r.bodyText))
    ∧ ∀ events, chatCompletionStream parse (.responded r) ≠ .ok events := by
  have hs : chatCompletionStream parse (.responded r) =
      .error (.HttpStatusError (r.statusLine ++ " " ++ r.bodyText)) := by
    simp [chatCompletionStream, h]
  exact ⟨hs, fun events hevents => by rw [hs] at hevents; cases hevents⟩

/-- C5 witness: a concrete 404 response with a body and pending
chunks; the call fails with the status line and body, delivering
nothing. -/
theorem c5_non_success_status_witness :
    chatCompletionStream failParse
        (.responded ⟨false, "404 Not Found", "missing model", [.ok "data: x\n"]⟩) =
      .error (.HttpStatusError "404 Not Found missing model") :=
  (c5_non_success_status failParse
    ⟨false, "404 Not Found", "missing model", [.ok "data: x\n"]⟩ rfl).1

/-- Left-fold of the `Content` deltas of an event list onto an
accumulator: the in-order concatenation, as the drain loop builds it. -/
def contentFold (acc : String) : List ChatCompletionEvent → String
  | [] => acc
  | .Content d :: rest => contentFold (acc ++ d) rest
  | _ :: rest => contentFold acc rest

/-- Left-fold of the `ReasoningContent` deltas of an event list onto an
accumulator. -/
def reasoningFold (acc : String) : List ChatCompletionEvent → String
  | [] => acc
  | .ReasoningContent d :: rest => reasoningFold (acc ++ d) rest
  | _ :: rest => reasoningFold acc rest

/-- The first `Error` event of an event list, if any. -/
def firstError : List ChatCompletionEvent → Option InvmstError
  | [] => none
  | .Error e :: _ => some e
  | _ :: rest => firstError rest

/-- Drain loop on an error-free stream: the accumulators end up holding
the full concatenations. -/
theorem drainEvents_ok (events : List ChatCompletionEvent)
    (h : firstError events = none) : ∀ c r, drainEvents c r events =
      .ok ⟨.Bot, contentFold c events,
        if reasoningFold r events = "" then none else some (reasoningFold r events)⟩ := by
  induction events with
  | nil => intro c r; rfl
  | cons ev rest ih =>
    intro c r
    cases ev with
    | Content d => exact ih h (c ++ d) r
    | ReasoningContent d => exact ih h c (r ++ d)
    | Error e => exact absurd h (by simp [firstError])

/-- Drain loop hitting an `Error` event: the first one is returned as
the failure. -/
theorem drainEvents_error (events : List ChatCompletionEvent)
    (e : InvmstError) (h : firstError events = some e) :
    ∀ c r, drainEvents c r events = .error e := by
  induction events with
  | nil => cases h
  | cons ev rest ih =>
    intro c r
    cases ev with
    | Content d => exact ih h (c ++ d) r
    | ReasoningContent d => exact ih h c (r ++ d)
    | Error e' =>
      have : e' = e := by simpa [firstError] using h
      subst this
      rfl

/-- C6: `chat_completion` drains the event stream; with no `Error`
event it returns a `Bot` message whose content is the in-order
concatenation of the `Content` deltas and whose reasoning is the
in-order concatenation of the `ReasoningContent` deltas, `none` when
that concatenation is empty; otherwise the first `Error` event is
returned as the failure. -/
theorem c6_drain_semantics (events : List ChatCompletionEvent) :
    (firstError events = none →
      chatCompletionOfEvents events =
        .ok ⟨.Bot, contentFold "" events,
          if reasoningFold "" events = "" then none
          else some (reasoningFold "" events)⟩)
    ∧ ∀ e, firstError events = some e →
        chatCompletionOfEvents events = .error e :=
  ⟨fun h => drainEvents_ok events h "" "",
   fun e h => drainEvents_error events e h "" ""⟩

/-- C6 witness: a concrete mixed stream with two content deltas and one
reasoning delta, and a concrete stream whose second event is an error. -/
theorem c6_drain_semantics_witness :
    chatCompletionOfEvents [.Content "Hel", .ReasoningContent "why", .Content "lo"] =
      .ok ⟨.Bot, "Hello", some "why"⟩
    ∧ chatCompletionOfEvents [.Content "a", .Error (.HttpRequestError "reset"),
        .Error (.HttpRequestError "late")] = .error (.HttpRequestError "reset") :=
  ⟨by have := (c6_drain_semantics
        [.Content "Hel", .ReasoningContent "why", .Content "lo"]).1 (by decide)
      simpa using this,
   (c6_drain_semantics [.Content "a", .Error (.HttpRequestError "reset"),
        .Error (.HttpRequestError "late")]).2 (.HttpRequestError "reset") (by decide)⟩

/-- C7: a malformed `data:` payload produces exactly one `Error` event
and processing continues with the following lines; a transport-level
read error produces exactly one `Error` event and processing continues
with the following chunks; the event stream is the concatenation of
the per-chunk events and is empty exactly at the end of the byte
stream — ending is independent of whether `[DONE]` was seen. -/
theorem c7_error_events_and_stream_end (parse : String → Except String Json) :
    (∀ line data rest e, stripData line = some data → data ≠ "[DONE]".data →
        parse (String.mk data) = .error e →
        chunkLineEvents parse (line :: rest) =
          .Error (.SerdeJsonError e) :: chunkLineEvents parse rest)
    ∧ (∀ e rest, producerEvents parse (.error e :: rest) =
        .Error (.HttpRequestError e) :: producerEvents parse rest)
    ∧ (∀ chunk rest, producerEvents parse (chunk :: rest) =
        chunkEvents parse chunk ++ producerEvents parse rest)
    ∧ producerEvents parse [] = [] := by
  refine ⟨?_, fun e rest => rfl, fun chunk rest => rfl, rfl⟩
  intro line data rest e hline hdone hparse
  simp only [chunkLineEvents, hline, if_neg hdone, lineEvents, hparse,
    List.singleton_append]

/-- C7 witness: the per-line conjunct at a concrete malformed payload
(the synthetic oracle rejects it), continuing into a later good line. -/
theorem c7_error_events_and_stream_end_witness :
    chunkLineEvents syntheticParse ("data: nonsense".data :: ["no marker".data]) =
      [.Error (.SerdeJsonError "expected value")] :=
  (c7_error_events_and_stream_end syntheticParse).1
    "data: nonsense".data "nonsense".data ["no marker".data]
    "expected value" (by decide) (by decide) rfl

/-- C1: dispatch of the producer loop on one `data: ` line — `[DONE]`
stops the line processing of the current chunk and emits nothing; any
other payload that parses emits exactly one `Content` event when
`choices[0].delta.content` is a string, else exactly one
`ReasoningContent` event when `choices[0].delta.reasoning_content` is
a string, else no event — and the synthetic two-frame stream
`A`, `B`, `[DONE]` delivers exactly the two `Content` events in
order, then the stream ends. -/
theorem c1_line_dispatch (parse : String → Except String Json)
    (line data : List Char) (rest : List (List Char))
    (hline : stripData line = some data) :
    (data = "[DONE]".data → chunkLineEvents parse (line :: rest) = [])
    ∧ (∀ j s, data ≠ "[DONE]".data → parse (String.mk data) = .ok j →
        deltaContent j = some s →
        chunkLineEvents parse (line :: rest) =
          .Content s :: chunkLineEvents parse rest)
    ∧ (∀ j s, data ≠ "[DONE]".data → parse (String.mk data) = .ok j →
        deltaContent j = none → deltaReasoning j = some s →
        chunkLineEvents parse (line :: rest) =
          .ReasoningContent s :: chunkLineEvents parse rest)
    ∧ (∀ j, data ≠ "[DONE]".data → parse (String.mk data) = .ok j →
        deltaContent j = none → deltaReasoning j = none →
        chunkLineEvents parse (line :: rest) = chunkLineEvents parse rest)
    ∧ producerEvents syntheticParse [.ok syntheticBody] =
        [.Content "A", .Content "B"] := by
  refine ⟨?_, ?_, ?_, ?_, by decide⟩
  · intro h
    simp only [chunkLineEvents, hline, if_pos h]
  · intro j s hdone hparse hc
    simp only [chunkLineEvents, hline, if_neg hdone, lineEvents, hparse, hc,
      List.singleton_append]
  · intro j s hdone hparse hc hr
    simp only [chunkLineEvents, hline, if_neg hdone, lineEvents, hparse, hc, hr,
      List.singleton_append]
  · intro j hdone hparse hc hr
    simp only [chunkLineEvents, hline, if_neg hdone, lineEvents, hparse, hc, hr,
      List.nil_append]

/-- C1 witness: the `[DONE]` conjunct at a concrete line (the rest of
the chunk is dropped) together with the synthetic stream conjunct. -/
theorem c1_line_dispatch_witness :
    chunkLineEvents syntheticParse ("data: [DONE]".data :: ["data: junk".data]) = []
    ∧ producerEvents syntheticParse [.ok syntheticBody] =
        [.Content "A", .Content "B"] :=
  ⟨(c1_line_dispatch syntheticParse "data: [DONE]".data "[DONE]".data
      ["data: junk".data] (by decide)).1 rfl,
   (c1_line_dispatch syntheticParse "data: [DONE]".data "[DONE]".data
      ["data: junk".data] (by decide)).2.2.2.2⟩

/-- An `Except` that reports success is an `ok`. -/
theorem exOk {α β : Type} (e : Except α β) (h : e.isOk = true) : ∃ b, e = .ok b := by
  cases e with
  | error a => cases h
  | ok b => exact ⟨b, rfl⟩

/-- When every fiscal fetch succeeds, the fetch loop succeeds and its
trace consists of fiscal fetches only. -/
theorem fiscalLoop_ok (o : EvalOracle)
    (hf : ∀ i, (o.fiscalMetricset i).isOk = true) :
    ∀ n i0, ∃ tr ms, fiscalLoop o i0 n = (tr, .ok ms)
      ∧ ∀ a ∈ tr, ∃ k, a = EvalAction.fetchFiscal k := by
  intro n
  induction n with
  | zero => exact fun i0 => ⟨[], [], rfl, by simp⟩
  | succ n ih =>
    intro i0
    obtain ⟨m, hm⟩ := exOk _ (hf i0)
    obtain ⟨tr, ms, hloop, htr⟩ := ih (i0 + 1)
    refine ⟨.fetchFiscal i0 :: tr, m :: ms, ?_, ?_⟩
    · simp only [fiscalLoop, hm, hloop]
    · intro a ha
      rcases List.mem_cons.mp ha with h | h
      · exact ⟨i0, h⟩
      · exact htr a h

/-- The filter-parsing loop fails with `NotExists` at the first
unparseable alias. -/
theorem resolveMasters_err (pre : List String) (s : String) (post : List String)
    (hpre : ∀ x ∈ pre, (Master.fromStr x).isOk = true)
    (hs : (Master.fromStr s).isOk = false) :
    resolveMasters (pre ++ s :: post) =
      .error (.NotExists "MASTER_NOT_EXISTS" ("Master '" ++ s ++ "' not exists")) := by
  induction pre with
  | nil =>
    cases he : Master.fromStr s with
    | error e => simp only [List.nil_append, resolveMasters, he]
    | ok m => rw [he] at hs; cases hs
  | cons x pre ih =>
    obtain ⟨m, hm⟩ := exOk _ (hpre x (by simp))
    have ihh := ih (fun y hy => hpre y (by simp [hy]))
    simp only [List.cons_append, resolveMasters, hm, List.append_eq, ihh]

/-- C2 (amended): when the ticker parses and every data fetch
succeeds, an analyzer filter containing an unparseable alias (here: the
first bad alias `s`, after a prefix of valid ones) fails the whole call
with `NotExists` naming that alias, before any analyzer task is
spawned or joined — but after the snapshot data fetches, which the
original claim wrongly excluded. -/
theorem c2_invalid_alias_before_spawn (o : EvalOracle)
    (parse : String → Except String Json) (opts : EvaluateOptions)
    (pre post : List String) (s : String)
    (ht : o.tickerParse.isOk = true) (hi : o.stockInfo.isOk = true)
    (he : o.stockEvents.isOk = true) (hv : o.dailyValuations.isOk = true)
    (hf : ∀ i, (o.fiscalMetricset i).isOk = true)
    (hm : opts.masters = pre ++ s :: post)
    (hpre : ∀ x ∈ pre, (Master.fromStr x).isOk = true)
    (hs : (Master.fromStr s).isOk = false) :
    (evalRun o parse opts).2 =
      .error (.NotExists "MASTER_NOT_EXISTS" ("Master '" ++ s ++ "' not exists"))
    ∧ ∀ m, EvalAction.spawn m ∉ (evalRun o parse opts).1
      ∧ EvalAction.join m ∉ (evalRun o parse opts).1 := by
  obtain ⟨u, hu⟩ := exOk _ ht
  obtain ⟨info, hinfo⟩ := exOk _ hi
  obtain ⟨ev, hev⟩ := exOk _ he
  obtain ⟨dv, hdv⟩ := exOk _ hv
  obtain ⟨tr, ms, hloop, htr⟩ := fiscalLoop_ok o hf (Int.tdiv opts.backwardDays 91).toNat 0
  have hne : ¬ (pre ++ s :: post = []) := by simp
  have hres := resolveMasters_err pre s post hpre hs
  have hrun : evalRun o parse opts =
      ([EvalAction.fetchInfo, EvalAction.fetchEvents, EvalAction.fetchDaily] ++ tr,
        .error (.NotExists "MASTER_NOT_EXISTS" ("Master '" ++ s ++ "' not exists"))) := by
    simp only [evalRun, hu, hinfo, hev, hdv, hloop, hm, if_neg hne, hres]
  refine ⟨by rw [hrun], fun m => ⟨?_, ?_⟩⟩
  · rw [hrun]
    intro hmem
    rcases List.mem_append.mp hmem with h3 | h3
    · simp at h3
    · obtain ⟨k, hk⟩ := htr _ h3
      cases hk
  · rw [hrun]
    intro hmem
    rcases List.mem_append.mp hmem with h3 | h3
    · simp at h3
    · obtain ⟨k, hk⟩ := htr _ h3
      cases hk

/-- C2 witness: the amended theorem at a concrete oracle (all fetches
succeed), a 91-day window and the single bad alias `unknown`. -/
theorem c2_invalid_alias_before_spawn_witness :
    (evalRun happyOracle failParse ⟨91, none, ["unknown"]⟩).2 =
      .error (.NotExists "MASTER_NOT_EXISTS" "Master 'unknown' not exists")
    ∧ EvalAction.spawn .WarrenBuffett ∉ (evalRun happyOracle failParse ⟨91, none, ["unknown"]⟩).1 :=
  ⟨(c2_invalid_alias_before_spawn happyOracle failParse ⟨91, none, ["unknown"]⟩
      [] [] "unknown" rfl rfl rfl rfl (fun _ => rfl) rfl (by simp) (by decide)).1,
   ((c2_invalid_alias_before_spawn happyOracle failParse ⟨91, none, ["unknown"]⟩
      [] [] "unknown" rfl rfl rfl rfl (fun _ => rfl) rfl (by simp) (by decide)).2
      .WarrenBuffett).1⟩

/-- C2 counterexample: on the same concrete run the call does fail
with `NotExists` — but only after the snapshot data fetches: the trace
of observed actions contains the stock-info fetch (and the other
network fetches), contradicting the claim that no data fetch happens
before the failure. -/
theorem c2_counterexample :
    (evalRun happyOracle failParse ⟨91, none, ["unknown"]⟩).2 =
      .error (.NotExists "MASTER_NOT_EXISTS" "Master 'unknown' not exists")
    ∧ (evalRun happyOracle failParse ⟨91, none, ["unknown"]⟩).1 =
        [.fetchInfo, .fetchEvents, .fetchDaily, .fetchFiscal 0]
    ∧ EvalAction.fetchInfo ∈ (evalRun happyOracle failParse ⟨91, none, ["unknown"]⟩).1 := by
  refine ⟨by decide, by decide, by decide⟩

/-- With no tag-block match anywhere, the replace-all pass is the
identity, for any fuel. -/
theorem replaceAllXmlTagsAux_id (cs : List Char) (h : hasTagBlock cs = false) :
    ∀ fuel, replaceAllXmlTagsAux fuel cs = cs := by
  induction cs with
  | nil => intro fuel; cases fuel <;> rfl
  | cons c rest ih =>
    intro fuel
    cases fuel with
    | zero => rfl
    | succ fuel =>
      rw [hasTagBlock] at h
      rcases Bool.or_eq_false_iff.mp h with ⟨h1, h2⟩
      cases hx : xmlMatchAt (c :: rest) with
      | some rem => rw [hx] at h1; cases h1
      | none =>
        simp only [replaceAllXmlTagsAux, hx]
        rw [ih h2 fuel]

/-- With no triple backtick anywhere, no fence line is found. -/
theorem findFenceLineEnd_none (cs : List Char) (h : hasTicks cs = false) :
    findFenceLineEnd cs = none := by
  induction cs with
  | nil => rfl
  | cons c rest ih =>
    rw [hasTicks] at h
    rcases Bool.or_eq_false_iff.mp h with ⟨h1, h2⟩
    rw [findFenceLineEnd, if_neg (by simp [h1]), ih h2]

/-- A whitespace-then-fence head implies a triple backtick occurs. -/
theorem startsFenceAfterWs_hasTicks (cs : List Char)
    (h : startsFenceAfterWs cs = true) : hasTicks cs = true := by
  induction cs with
  | nil => cases h
  | cons c rest ih =>
    rw [startsFenceAfterWs] at h
    rw [hasTicks]
    by_cases ht : isTicksHead (c :: rest) = true
    · simp [ht]
    · rw [if_neg (by simp at ht ⊢; exact ht)] at h
      by_cases hw : rustCharIsWhitespace c = true
      · rw [if_pos hw] at h
        simp [ih h]
      · rw [if_neg (by simp at hw ⊢; exact hw)] at h
        cases h

/-- With no triple backtick anywhere, the trailing-fence cut is the
identity. -/
theorem cutEnd_id (cs : List Char) (h : hasTicks cs = false) : cutEnd cs = cs := by
  induction cs with
  | nil => rfl
  | cons c rest ih =>
    have h' := h
    rw [hasTicks] at h'
    rcases Bool.or_eq_false_iff.mp h' with ⟨h1, h2⟩
    have hsf : ¬ startsFenceAfterWs (c :: rest) = true := fun hs => by
      rw [startsFenceAfterWs_hasTicks _ hs] at h
      cases h
    rw [cutEnd, if_neg (by simp at hsf ⊢; exact hsf), ih h2]

/-- C9: on input with no markdown fence and no paired tag block,
`extract_code_block` returns the input unchanged except for trimming
surrounding whitespace; `extract_code_block "foobar"` is `"foobar"`,
and the fenced variant with `foobar` between two fence lines also
extracts to `"foobar"`. -/
theorem c9_no_fence_no_tag (s : String)
    (hfence : hasTicks s.data = false) (htag : hasTagBlock s.data = false) :
    extract_code_block s = String.mk (rustTrim s.data)
    ∧ extract_code_block "foobar" = "foobar"
    ∧ extract_code_block "```\nfoobar\n```" = "foobar" := by
  refine ⟨?_, by decide, by decide⟩
  unfold extract_code_block replaceAllXmlTags
  rw [replaceAllXmlTagsAux_id s.data htag]
  rw [fenceStartRemove, findFenceLineEnd_none s.data hfence]
  rw [cutEnd_id s.data hfence]

/-- C9 witness: a fence-free, tag-free input is returned trimmed. -/
theorem c9_no_fence_no_tag_witness :
    extract_code_block "  plain answer  " = String.mk (rustTrim "  plain answer  ".data) :=
  (c9_no_fence_no_tag "  plain answer  " (by decide) (by decide)).1

/-- Scanning past a `>`-free run reaches the terminator. -/
theorem skipToGt_past (t rest : List Char) (h : '>' ∉ t) :
    skipToGt (t ++ '>' :: rest) = some rest := by
  induction t with
  | nil => rw [List.nil_append, skipToGt, if_pos rfl]
  | cons c t ih =>
    have hc : ¬ c = '>' := fun hh => h (by rw [hh]; exact List.mem_cons_self _ _)
    rw [List.cons_append, skipToGt, if_neg hc,
      ih (fun hmem => h (List.mem_cons_of_mem _ hmem))]

/-- `[^>]+>` consumes exactly a nonempty `>`-free tag body and its
terminator. -/
theorem afterTagBody_past (t rest : List Char) (hne : t ≠ []) (h : '>' ∉ t) :
    afterTagBody (t ++ '>' :: rest) = some rest := by
  cases t with
  | nil => cases hne rfl
  | cons c t =>
    have hc : ¬ c = '>' := fun hh => h (by rw [hh]; exact List.mem_cons_self _ _)
    rw [List.cons_append, afterTagBody, if_neg hc]
    exact skipToGt_past t rest (fun hmem => h (List.mem_cons_of_mem _ hmem))

/-- The lazy scan for a closing tag skips a `<`-free middle and stops
at the first closing tag, whatever its name. -/
theorem findClose_past (m t2 y : List Char) (hm : '<' ∉ m) (h2 : t2 ≠ [])
    (hg2 : '>' ∉ t2) :
    findClose (m ++ ('<' :: '/' :: (t2 ++ '>' :: y))) = some y := by
  induction m with
  | nil =>
    have hct : matchCloseTag ('<' :: '/' :: (t2 ++ '>' :: y)) = some y := by
      rw [matchCloseTag, if_pos ⟨rfl, rfl⟩]
      exact afterTagBody_past t2 y h2 hg2
    rw [List.nil_append, findClose, hct]
  | cons c m ih =>
    have hc : ¬ c = '<' := fun hh => hm (by rw [hh]; exact List.mem_cons_self _ _)
    have hct : matchCloseTag (c :: (m ++ ('<' :: '/' :: (t2 ++ '>' :: y)))) = none := by
      cases hsplit : m ++ ('<' :: '/' :: (t2 ++ '>' :: y)) with
      | nil => rfl
      | cons c2 rest2 => rw [matchCloseTag, if_neg (fun hand => hc hand.1)]
    rw [List.cons_append, findClose, hct]
    exact ih (fun hmem => hm (List.mem_cons_of_mem _ hmem))

/-- `REGEX_XML_TAG` matches a whole `<t1>…</t2>` block at its start,
with no comparison of the two tag names. -/
theorem xmlMatchAt_block (t1 t2 m y : List Char) (h1 : t1 ≠ []) (hg1 : '>' ∉ t1)
    (h2 : t2 ≠ []) (hg2 : '>' ∉ t2) (hm : '<' ∉ m) :
    xmlMatchAt ('<' :: (t1 ++ '>' :: (m ++ ('<' :: '/' :: (t2 ++ '>' :: y))))) =
      some y := by
  have ho : matchOpenTag ('<' :: (t1 ++ '>' :: (m ++ ('<' :: '/' :: (t2 ++ '>' :: y))))) =
      some (m ++ ('<' :: '/' :: (t2 ++ '>' :: y))) := by
    rw [matchOpenTag, if_pos rfl]
    exact afterTagBody_past t1 _ h1 hg1
  rw [xmlMatchAt, ho]
  exact findClose_past m t2 y hm h2 hg2

/-- A successful `>`-scan consumes at least one character. -/
theorem skipToGt_length : ∀ cs r, skipToGt cs = some r → r.length < cs.length := by
  intro cs
  induction cs with
  | nil => intro r h; cases h
  | cons c rest ih =>
    intro r h
    rw [skipToGt] at h
    by_cases hc : c = '>'
    · rw [if_pos hc] at h
      cases h
      simp
    · rw [if_neg hc] at h
      exact Nat.lt_trans (ih r h) (by simp)

/-- A successful tag-body match consumes at least one character. -/
theorem afterTagBody_length : ∀ cs r, afterTagBody cs = some r → r.length < cs.length := by
  intro cs
  induction cs with
  | nil => intro r h; cases h
  | cons c rest _ =>
    intro r h
    rw [afterTagBody] at h
    by_cases hc : c = '>'
    · rw [if_pos hc] at h
      cases h
    · rw [if_neg hc] at h
      exact Nat.lt_trans (skipToGt_length rest r h) (by simp)

/-- A successful opening-tag match consumes at least one character. -/
theorem matchOpenTag_length : ∀ cs r, matchOpenTag cs = some r → r.length < cs.length := by
  intro cs
  cases cs with
  | nil => intro r h; cases h
  | cons c rest =>
    intro r h
    rw [matchOpenTag] at h
    by_cases hc : c = '<'
    · rw [if_pos hc] at h
      exact Nat.lt_trans (afterTagBody_length rest r h) (by simp)
    · rw [if_neg hc] at h
      cases h

/-- A successful closing-tag match consumes at least one character. -/
theorem matchCloseTag_length : ∀ cs r, matchCloseTag cs = some r → r.length < cs.length := by
  intro cs
  cases cs with
  | nil => intro r h; cases h
  | cons c1 rest1 =>
    cases rest1 with
    | nil => intro r h; cases h
    | cons c2 rest =>
      intro r h
      rw [matchCloseTag] at h
      by_cases hc : c1 = '<' ∧ c2 = '/'
      · rw [if_pos hc] at h
        have := afterTagBody_length rest r h
        simp only [List.length_cons]
        omega
      · rw [if_neg hc] at h
        cases h

/-- A successful closing-tag scan consumes at least one character. -/
theorem findClose_length : ∀ cs r, findClose cs = some r → r.length < cs.length := by
  intro cs
  induction cs with
  | nil => intro r h; cases h
  | cons c rest ih =>
    intro r h
    rw [findClose] at h
    cases hct : matchCloseTag (c :: rest) with
    | some r2 =>
      rw [hct] at h
      cases h
      exact matchCloseTag_length _ _ hct
    | none =>
      rw [hct] at h
      exact Nat.lt_trans (ih r h) (by simp)

/-- A successful whole-pattern match consumes at least one character. -/
theorem xmlMatchAt_length (cs r : List Char) (h : xmlMatchAt cs = some r) :
    r.length < cs.length := by
  rw [xmlMatchAt] at h
  cases ho : matchOpenTag cs with
  | none => rw [ho] at h; cases h
  | some mid =>
    rw [ho] at h
    exact Nat.lt_trans (findClose_length mid r h) (matchOpenTag_length cs mid ho)

/-- The replace-all worker ignores its fuel as long as the fuel covers
the input length. -/
theorem replaceAllXmlTagsAux_fuel : ∀ n m cs, cs.length ≤ n → cs.length ≤ m →
    replaceAllXmlTagsAux n cs = replaceAllXmlTagsAux m cs := by
  intro n
  induction n with
  | zero =>
    intro m cs hn _
    have hnil : cs = [] := List.length_eq_zero.mp (Nat.le_zero.mp hn)
    subst hnil
    cases m <;> rfl
  | succ n ih =>
    intro m cs hn hm
    cases cs with
    | nil => cases m <;> rfl
    | cons c rest =>
      cases m with
      | zero => simp at hm
      | succ m =>
        cases hx : xmlMatchAt (c :: rest) with
        | some rem =>
          have hlen := xmlMatchAt_length _ _ hx
          simp only [replaceAllXmlTagsAux, hx]
          refine ih m rem ?_ ?_ <;> simp only [List.length_cons] at hlen hn hm <;> omega
        | none =>
          simp only [replaceAllXmlTagsAux, hx]
          rw [ih m rest (by simp only [List.length_cons] at hn; omega)
            (by simp only [List.length_cons] at hm; omega)]

/-- C10: the tag-removal step deletes the span from any opening tag
`<t1>` (nonempty tag text without `>`) through the nearest following
closing tag `</t2>` and goes on scanning after it, with no check that
the names `t1` and `t2` agree; in particular
`extract_code_block "<a>x</b>y"` is `"y"`. -/
theorem c10_tag_names_unchecked (t1 t2 m y : List Char)
    (h1 : t1 ≠ []) (hg1 : '>' ∉ t1) (h2 : t2 ≠ []) (hg2 : '>' ∉ t2) (hm : '<' ∉ m) :
    replaceAllXmlTags ('<' :: (t1 ++ '>' :: (m ++ ('<' :: '/' :: (t2 ++ '>' :: y))))) =
      replaceAllXmlTags y
    ∧ extract_code_block "<a>x</b>y" = "y" := by
  refine ⟨?_, by decide⟩
  have hx := xmlMatchAt_block t1 t2 m y h1 hg1 h2 hg2 hm
  have hylen : y.length ≤ (t1 ++ '>' :: (m ++ ('<' :: '/' :: (t2 ++ '>' :: y)))).length := by
    simp [List.length_append]
    omega
  rw [replaceAllXmlTags, List.length_cons, replaceAllXmlTagsAux, hx]
  show replaceAllXmlTagsAux _ y = _
  rw [replaceAllXmlTagsAux_fuel _ y.length y hylen (Nat.le_refl _), replaceAllXmlTags]

/-- C10 witness: the block-removal equation at the concrete differing
tag names `a` and `b` of `<a>x</b>y`, together with the concrete
extraction. -/
theorem c10_tag_names_unchecked_witness :
    replaceAllXmlTags "<a>x</b>y".data = replaceAllXmlTags "y".data
    ∧ extract_code_block "<a>x</b>y" = "y" :=
  c10_tag_names_unchecked ['a'] ['b'] ['x'] ['y'] (by decide) (by decide)
    (by decide) (by decide) (by decide)

end Invmst
